import Mathlib

/-!
Verification development for the kayring secret store (`src/main.rs`).

The store logic — on-disk layout, byte slicing, path resolution, hex
codec, error and panic behaviour of `sub_set`, `sub_get`, `sub_clone` —
is translated directly from the Rust source.  The cryptographic
primitives live in third-party crates that are not part of this
repository (`aes_gcm`, `pbkdf2`, `unicode_normalization`); those are
modelled from the spec as ideal executable functions, each marked with
a `Modelled from the spec:` doc comment.  File contents are lists of
natural numbers: genuine byte values for the version/salt/nonce/
plaintext cells, plus two idealized cells produced by the ideal AEAD.
-/

namespace Kayring

instance instDecEqExcept {ε α : Type} [DecidableEq ε] [DecidableEq α] :
    DecidableEq (Except ε α) :=
  fun a b =>
    match a, b with
    | .ok x, .ok y =>
      if h : x = y then isTrue (by rw [h]) else isFalse (by intro hc; cases hc; exact h rfl)
    | .error x, .error y =>
      if h : x = y then isTrue (by rw [h]) else isFalse (by intro hc; cases hc; exact h rfl)
    | .ok _, .error _ => isFalse (by intro hc; cases hc)
    | .error _, .ok _ => isFalse (by intro hc; cases hc)

/-- Error outcomes of the Rust binary.  Each constructor corresponds to one
`format!`/`Err` site of `main.rs` (noted in the comment), except `rustPanic`
which records a Rust panic (out-of-bounds indexing or a failed `assert!`). -/
inductive KayErr where
  /-- "A kaystore {} already exists. Use --force to overwrite." -/
  | alreadyExists (name : String)
  /-- "No kaystore found for {}" -/
  | notFound (name : String)
  /-- "Passwords do not match" -/
  | passwordMismatch
  /-- "Value is required in silent mode" -/
  | valueRequired
  /-- "Value must be a hex string starting with 0x" (prompted-value check) -/
  | valueNotHexPrefixed
  /-- "Value must be a valid hex string" (`hex::decode` failure) -/
  | invalidHex
  /-- "Unknown file version" -/
  | unknownFileVersion
  /-- "Failed to decrypt: {}" (AEAD authentication failure) -/
  | decryptFailed
  /-- "Could not determine the root directory" -/
  | noRootDir
  /-- a Rust panic: the process aborts instead of returning an error -/
  | rustPanic (msg : String)
deriving DecidableEq, Repr

/-- Modelled from the spec: the 32-byte key produced by PBKDF2-HMAC-SHA-256
(`pbkdf2` crate, not in `src/`).  The spec uses only that derivation is
deterministic and collision-free across distinct inputs, so the ideal key
is represented by its defining inputs (password bytes, salt, round count). -/
structure DerivedKey where
  pw : List Nat
  salt : List Nat
  rounds : Nat
deriving DecidableEq, Repr

/-! ## UTF-8 encoding (Rust `str::as_bytes`) -/

/-- UTF-8 encoding of a single scalar value, as in Rust `str::as_bytes`. -/
def utf8Char (c : Char) : List Nat :=
  let n := c.toNat
  if n < 128 then [n]
  else if n < 2048 then [192 + n / 64, 128 + n % 64]
  else if n < 65536 then [224 + n / 4096, 128 + n / 64 % 64, 128 + n % 64]
  else [240 + n / 262144, 128 + n / 4096 % 64, 128 + n / 64 % 64, 128 + n % 64]

def utf8Bytes : List Char → List Nat
  | [] => []
  | c :: cs => utf8Char c ++ utf8Bytes cs

/-- The UTF-8 byte sequence of a string (Rust `str::as_bytes`). -/
def utf8Encode (s : String) : List Nat := utf8Bytes s.data

/-! ## NFC normalization -/

/-- Modelled from the spec: the canonical composition table of Unicode NFC
(`unicode_normalization` crate, not in `src/`), restricted to a fragment of
Latin base-plus-combining-mark pairs sufficient for the properties below.
Pairs are (base scalar, combining mark scalar) to the precomposed scalar,
taken from the Unicode data for these characters. -/
def composePair (a b : Nat) : Option Nat :=
  if a = 0x65 ∧ b = 0x301 then some 0xE9        -- e + acute → é
  else if a = 0x45 ∧ b = 0x301 then some 0xC9   -- E + acute → É
  else if a = 0x61 ∧ b = 0x301 then some 0xE1   -- a + acute → á
  else if a = 0x61 ∧ b = 0x300 then some 0xE0   -- a + grave → à
  else if a = 0x6F ∧ b = 0x301 then some 0xF3   -- o + acute → ó
  else if a = 0x75 ∧ b = 0x301 then some 0xFA   -- u + acute → ú
  else if a = 0x6E ∧ b = 0x303 then some 0xF1   -- n + tilde → ñ
  else none

/-- Left-to-right canonical composition pass; `fuel` bounds the recursion so
that the definition is structural (each step consumes at least one column). -/
def nfcGo : Nat → List Char → List Char
  | 0, l => l
  | _ + 1, [] => []
  | _ + 1, [c] => [c]
  | fuel + 1, a :: b :: rest =>
    match composePair a.toNat b.toNat with
    | some c => nfcGo fuel (Char.ofNat c :: rest)
    | none => a :: nfcGo fuel (b :: rest)

/-- Modelled from the spec: Unicode NFC normalization of a password
(`unicode_normalization::nfc`, not in `src/`), as the canonical-composition
pass over the string's characters. -/
def nfc (s : String) : String := String.mk (nfcGo s.data.length s.data)

/-! ## Hex codec (`hex::decode` / `hex::encode`) -/

/-- Value of one ASCII hex digit byte, as accepted by `hex::decode`. -/
def hexDigitVal (b : Nat) : Option Nat :=
  if 48 ≤ b ∧ b ≤ 57 then some (b - 48)
  else if 97 ≤ b ∧ b ≤ 102 then some (b - 87)
  else if 65 ≤ b ∧ b ≤ 70 then some (b - 55)
  else none

/-- Rust `hex::decode` over the UTF-8 bytes of the sliced value string:
fails on odd length or any non-hex-digit character. -/
def hexDecodeBytes : List Nat → Option (List Nat)
  | [] => some []
  | [_] => none
  | h :: l :: rest =>
    match hexDigitVal h, hexDigitVal l, hexDecodeBytes rest with
    | some a, some b, some tl => some ((a * 16 + b) :: tl)
    | _, _, _ => none

/-- Lowercase hex digit character, as produced by `hex::encode`. -/
def hexDigitChar (d : Nat) : Char := Char.ofNat (if d < 10 then 48 + d else 87 + d)

def hexChars : List Nat → List Char
  | [] => []
  | b :: bs => hexDigitChar (b / 16) :: hexDigitChar (b % 16) :: hexChars bs

/-- Rust `hex::encode`: lowercase hex string of a byte sequence. -/
def hexEncodeStr (bs : List Nat) : String := String.mk (hexChars bs)

/-! ## Ideal key derivation and AEAD

`derive_key_v1` (main.rs:322-328) normalizes the password to NFC, takes its
UTF-8 bytes, and calls PBKDF2; the PBKDF2 call itself is a library function
modelled ideally. -/

/-- Modelled from the spec: PBKDF2-HMAC-SHA-256 (`pbkdf2::pbkdf2`, not in
`src/`), idealized as the collision-free map packaging its inputs. -/
def pbkdf2Ideal (pw salt : List Nat) (rounds : Nat) : DerivedKey := ⟨pw, salt, rounds⟩

/-- `derive_key_v1` (main.rs:322): NFC-normalize the password, take its UTF-8
bytes, and derive the key via PBKDF2 from those bytes, the salt and the
round count. -/
def derive_key_v1 (password : String) (salt : List Nat) (rounds : Nat) : DerivedKey :=
  pbkdf2Ideal (utf8Encode (nfc password)) salt rounds

/-- Digit stream of a byte list for the ideal tag: each byte `b < 256`
becomes the base-258 digit `b + 1`, so `0` never occurs and `257` is free
to act as a field separator. -/
def digs : List Nat → List Nat
  | [] => []
  | b :: bs => (b + 1) :: digs bs

/-- Base-258 packing of a digit stream into one natural number. -/
def packDigits : List Nat → Nat
  | [] => 0
  | d :: ds => packDigits ds * 258 + d

/-- Modelled from the spec: the ideal 16-byte GCM authentication tag
(`aes_gcm` crate, not in `src/`), idealized as one inert cell holding a
number that is collision-free across (key, nonce, plaintext) triples —
the spec's authentication property says distinct triples never share a
valid tag. -/
def authTag (key : DerivedKey) (nonce pt : List Nat) : Nat :=
  Nat.pair key.rounds
    (packDigits (digs key.pw ++ (257 :: (digs key.salt ++ (257 :: (digs nonce ++ (257 :: digs pt)))))))

/-- Modelled from the spec: AES-256-GCM encryption (`Aes256Gcm::encrypt`,
not in `src/`).  The ideal ciphertext is the plaintext framed by its length
and followed by the ideal authentication tag; the spec only uses that the
output determines and authenticates (key, nonce, plaintext). -/
def aeadEncrypt (key : DerivedKey) (nonce pt : List Nat) : List Nat :=
  pt.length :: (pt ++ [authTag key nonce pt])

/-- Modelled from the spec: AES-256-GCM decryption (`Aes256Gcm::decrypt`,
not in `src/`): recover the candidate plaintext from the framing, then
accept only if re-encrypting reproduces the stored blob exactly — a single
opaque failure otherwise, as the spec requires. -/
def aeadDecrypt (key : DerivedKey) (nonce : List Nat) : List Nat → Option (List Nat)
  | [] => none
  | l :: rest =>
    let pt := rest.take l
    if aeadEncrypt key nonce pt = l :: rest then some pt else none

/-! ## Filesystem model

One file per entry; the store maps full file paths to byte contents.
A fresh write shadows any earlier entry for the same path, matching
`fs::write` truncate-and-replace semantics. -/

abbrev FS := List (String × List Nat)

def fsRead (fs : FS) (p : String) : Option (List Nat) := fs.lookup p

def fsExists (fs : FS) (p : String) : Bool := (fsRead fs p).isSome

def fsWrite (fs : FS) (p : String) (c : List Nat) : FS := (p, c) :: fs

/-- Console inputs that `promptpw` would return when the Rust binary
prompts; unused in silent mode or when the argument is supplied. -/
structure Prompts where
  pw : String
  pw2 : String
  value : String
deriving DecidableEq, Repr

/-- `rootdir` (main.rs:290-298): explicit `--dir` wins, else
`$HOME/.kayring`, else a fatal configuration error. -/
def rootdir (dir : Option String) (home : Option String) : Except KayErr String :=
  match dir with
  | some d => .ok d
  | none =>
    match home with
    | some h => .ok (h ++ "/.kayring")
    | none => .error .noRootDir

/-- Whether the entry name is an absolute path (Unix `Path::is_absolute`). -/
def startsWithSlash (s : String) : Bool :=
  match s.data with
  | [] => false
  | c :: _ => c = '/'

/-- Rust `Path::join`: an absolute right operand replaces the base path,
otherwise the raw name is appended after a separator — no sanitization. -/
def pathJoin (dir name : String) : String :=
  if startsWithSlash name then name else dir ++ "/" ++ name

/-! ## Path normalization (specification side, for the traversal claim) -/

/-- Split a character list at `/` separators, as components. -/
def splitSlash : List Char → List String
  | [] => [""]
  | c :: cs =>
    if c = '/' then "" :: splitSlash cs
    else
      match splitSlash cs with
      | [] => [String.mk [c]]
      | s :: rest => String.mk (c :: s.data) :: rest

def normStack : List String → List String → List String
  | acc, [] => acc.reverse
  | acc, c :: rest =>
    if c = "" ∨ c = "." then normStack acc rest
    else if c = ".." then normStack acc.tail rest
    else normStack (c :: acc) rest

/-- Component list of a path after resolving `.`, `..` and empty segments. -/
def normalizePath (s : String) : List String := normStack [] (splitSlash s.data)

/-- Whether `p`, after normalization, stays inside the directory `root`. -/
def isUnder (root p : String) : Bool :=
  (normalizePath p).take (normalizePath root).length == normalizePath root

/-! ## Subcommands -/

structure SetArgs where
  name : String
  value : Option String
  password : Option String
  silent : Bool
  force : Bool
  echo : Bool
  dir : Option String
  derivation_rounds : Nat
deriving DecidableEq, Repr

structure GetArgs where
  name : String
  password : Option String
  silent : Bool
  dir : Option String
  derivation_rounds : Nat
deriving DecidableEq, Repr

/-- `from`/`to` of `CloneArgs`; `from` is a Lean keyword, hence the suffix. -/
structure CloneArgs where
  fromName : String
  toName : String
  force : Bool
  dir : Option String
deriving DecidableEq, Repr

/-- Password resolution of `sub_set` (main.rs:136-149): explicit argument,
else empty string when silent, else prompt twice and compare. -/
def resolveSetPassword (password : Option String) (silent : Bool) (prompts : Prompts) :
    Except KayErr String :=
  match password with
  | some p => .ok p
  | none =>
    if silent then .ok ""
    else if prompts.pw ≠ prompts.pw2 then .error .passwordMismatch
    else .ok prompts.pw

/-- Value resolution of `sub_set` (main.rs:151-161): explicit argument is
taken as-is (no `0x` check!); a prompted value must start with `0x`. -/
def resolveSetValue (value : Option String) (silent : Bool) (prompts : Prompts) :
    Except KayErr String :=
  match value with
  | some v => .ok v
  | none =>
    if silent then .error .valueRequired
    else if decide ¬ (prompts.value.startsWith "0x") then .error .valueNotHexPrefixed
    else .ok prompts.value

/-- Rust `&privkey[2..]` followed by byte extraction (main.rs:162): string
slicing panics when the byte length is below 2 or byte 2 is not a char
boundary (a UTF-8 continuation byte); otherwise yields the remaining bytes. -/
def strBytesFrom2 (s : String) : Except KayErr (List Nat) :=
  let bs := utf8Encode s
  if bs.length < 2 then .error (.rustPanic "byte index out of bounds")
  else if 2 < bs.length ∧ 128 ≤ bs.getD 2 0 ∧ bs.getD 2 0 < 192 then
    .error (.rustPanic "byte index not a char boundary")
  else .ok (bs.drop 2)

/-- `sub_set` (main.rs:123-197).  The fresh salt and nonce drawn from the
OS RNG are injected parameters, as the spec's design notes direct; prompts
are likewise injected.  Steps, in source order: the nonce-length assert,
root-directory resolution, the overwrite check, password and value
resolution, hex decoding of the value without its first two bytes, key
derivation, encryption, and the file write. -/
def sub_set (fs : FS) (home : Option String) (prompts : Prompts)
    (salt nonce : List Nat) (args : SetArgs) : Except KayErr FS :=
  if nonce.length ≠ 12 then .error (.rustPanic "Unexpected nonce length")
  else
    match rootdir args.dir home with
    | .error e => .error e
    | .ok dirpath =>
      let filepath := pathJoin dirpath args.name
      if fsExists fs filepath && !args.force then .error (.alreadyExists args.name)
      else
        match resolveSetPassword args.password args.silent prompts with
        | .error e => .error e
        | .ok password =>
          match resolveSetValue args.value args.silent prompts with
          | .error e => .error e
          | .ok privkey =>
            match strBytesFrom2 privkey with
            | .error e => .error e
            | .ok sliced =>
              match hexDecodeBytes sliced with
              | none => .error .invalidHex
              | some value =>
                .ok (fsWrite fs filepath
                  (1 :: (salt ++ nonce ++
                    aeadEncrypt (derive_key_v1 password salt args.derivation_rounds)
                      nonce value)))

/-- The store after running `set` as `main` does: an error leaves the
filesystem untouched (the process exits without writing). -/
def runSet (fs : FS) (home : Option String) (prompts : Prompts)
    (salt nonce : List Nat) (args : SetArgs) : FS :=
  match sub_set fs home prompts salt nonce args with
  | .ok fs2 => fs2
  | .error _ => fs

/-- Password resolution of `sub_get` (main.rs:207-214): explicit argument,
else empty string when silent, else a single prompt. -/
def resolveGetPassword (password : Option String) (silent : Bool) (prompts : Prompts) : String :=
  match password with
  | some p => p
  | none => if silent then "" else prompts.pw

/-- Payload processing of `sub_get` (main.rs:221-232): read the version
byte (`contents[0]` panics on an empty file), slice salt/nonce/ciphertext
(panicking when fewer than 29 bytes are present), derive the key, decrypt
and hex-encode.  Any version byte other than 1 is rejected first. -/
def decodeAndDecrypt (contents : List Nat) (password : String) (rounds : Nat) :
    Except KayErr String :=
  match contents with
  | [] => .error (.rustPanic "index out of bounds")
  | filever :: _ =>
    if filever = 1 then
      if contents.length < 29 then .error (.rustPanic "slice index out of bounds")
      else
        let salt := (contents.drop 1).take 16
        let nonce := (contents.drop 17).take 12
        let encrypted := contents.drop 29
        match aeadDecrypt (derive_key_v1 password salt rounds) nonce encrypted with
        | some cleartext => .ok ("0x" ++ hexEncodeStr cleartext)
        | none => .error .decryptFailed
    else .error .unknownFileVersion

/-- `sub_get` (main.rs:199-235): resolve the path, fail `NotFound` when the
file is missing, resolve the password, then process the payload.  The
returned string is the `0x`-prefixed hex line the binary prints. -/
def sub_get (fs : FS) (home : Option String) (prompts : Prompts) (args : GetArgs) :
    Except KayErr String :=
  match rootdir args.dir home with
  | .error e => .error e
  | .ok dirpath =>
    let filepath := pathJoin dirpath args.name
    if !fsExists fs filepath then .error (.notFound args.name)
    else
      let password := resolveGetPassword args.password args.silent prompts
      decodeAndDecrypt ((fsRead fs filepath).getD []) password args.derivation_rounds

/-- `sub_clone` (main.rs:269-288): resolve both paths, fail `NotFound` when
the source is missing, fail `AlreadyExists` when the target exists without
`--force`, else copy the raw bytes. -/
def sub_clone (fs : FS) (home : Option String) (args : CloneArgs) : Except KayErr FS :=
  match rootdir args.dir home with
  | .error e => .error e
  | .ok dirpath =>
    let frompath := pathJoin dirpath args.fromName
    let topath := pathJoin dirpath args.toName
    if !fsExists fs frompath then .error (.notFound args.fromName)
    else if fsExists fs topath && !args.force then .error (.alreadyExists args.toName)
    else .ok (fsWrite fs topath ((fsRead fs frompath).getD []))

/-- Composition used by the round-trip style statements: run `set`, then
`get` on the resulting store; `none` when either step fails. -/
def setThenGet (fs : FS) (home : Option String) (prompts : Prompts)
    (salt nonce : List Nat) (sargs : SetArgs) (gargs : GetArgs) : Option String :=
  match sub_set fs home prompts salt nonce sargs with
  | .error _ => none
  | .ok fs2 => (sub_get fs2 home prompts gargs).toOption

end Kayring

namespace Kayring

/-! ## Injectivity of the ideal primitives -/

theorem digs_inj : ∀ a b : List Nat, digs a = digs b → a = b
  | [], [], _ => rfl
  | [], _ :: _, h => by simp [digs] at h
  | _ :: _, [], h => by simp [digs] at h
  | x :: xs, y :: ys, h => by
    simp only [digs, List.cons.injEq] at h
    have h1 : x = y := by omega
    have h2 := digs_inj xs ys h.2
    rw [h1, h2]

theorem digs_mem_bounds {l : List Nat} (hl : ∀ b ∈ l, b < 256) :
    ∀ d ∈ digs l, 1 ≤ d ∧ d ≤ 256 := by
  induction l with
  | nil => intro d hd; simp [digs] at hd
  | cons x xs ih =>
    intro d hd
    simp only [digs, List.mem_cons] at hd
    rcases hd with rfl | hd
    · have := hl x (by simp); omega
    · exact ih (fun b hb => hl b (by simp [hb])) d hd

theorem packDigits_inj : ∀ a b : List Nat,
    (∀ d ∈ a, 1 ≤ d ∧ d ≤ 257) → (∀ d ∈ b, 1 ≤ d ∧ d ≤ 257) →
    packDigits a = packDigits b → a = b
  | [], [], _, _, _ => rfl
  | [], y :: ys, _, hb, h => by
    simp only [packDigits] at h
    have := hb y (by simp)
    omega
  | x :: xs, [], ha, _, h => by
    simp only [packDigits] at h
    have := ha x (by simp)
    omega
  | x :: xs, y :: ys, ha, hb, h => by
    simp only [packDigits] at h
    have hx := ha x (by simp)
    have hy := hb y (by simp)
    have hd : x = y := by omega
    have hrest : packDigits xs = packDigits ys := by omega
    have := packDigits_inj xs ys (fun d hd => ha d (by simp [hd]))
      (fun d hd => hb d (by simp [hd])) hrest
    rw [hd, this]

theorem sep_split : ∀ a c : List Nat, (∀ x ∈ a, x ≠ 257) → (∀ x ∈ c, x ≠ 257) →
    ∀ b d : List Nat, a ++ (257 :: b) = c ++ (257 :: d) → a = c ∧ b = d
  | [], [], _, _, b, d, h => by simpa using h
  | [], y :: ys, _, hc, b, d, h => by
    simp only [List.nil_append, List.cons_append, List.cons.injEq] at h
    exact absurd h.1.symm (hc y (by simp))
  | x :: xs, [], ha, _, b, d, h => by
    simp only [List.nil_append, List.cons_append, List.cons.injEq] at h
    exact absurd h.1 (ha x (by simp))
  | x :: xs, y :: ys, ha, hc, b, d, h => by
    simp only [List.cons_append, List.cons.injEq] at h
    have := sep_split xs ys (fun z hz => ha z (by simp [hz]))
      (fun z hz => hc z (by simp [hz])) b d h.2
    exact ⟨by rw [h.1, this.1], this.2⟩

theorem tagStream_bounds {pw salt nonce pt : List Nat}
    (hpw : ∀ b ∈ pw, b < 256) (hsalt : ∀ b ∈ salt, b < 256)
    (hnonce : ∀ b ∈ nonce, b < 256) (hpt : ∀ b ∈ pt, b < 256) :
    ∀ d ∈ digs pw ++ (257 :: (digs salt ++ (257 :: (digs nonce ++ (257 :: digs pt))))),
      1 ≤ d ∧ d ≤ 257 := by
  intro d hd
  rcases List.mem_append.mp hd with h | h
  · have := digs_mem_bounds hpw d h; omega
  rcases List.mem_cons.mp h with rfl | h
  · omega
  rcases List.mem_append.mp h with h | h
  · have := digs_mem_bounds hsalt d h; omega
  rcases List.mem_cons.mp h with rfl | h
  · omega
  rcases List.mem_append.mp h with h | h
  · have := digs_mem_bounds hnonce d h; omega
  rcases List.mem_cons.mp h with rfl | h
  · omega
  have := digs_mem_bounds hpt d h; omega

theorem digs_ne_sep {l : List Nat} (hl : ∀ b ∈ l, b < 256) : ∀ x ∈ digs l, x ≠ 257 := by
  intro x hx
  have := digs_mem_bounds hl x hx
  omega

/-- The ideal tag is collision-free across (key, nonce, plaintext) triples,
as long as all the byte lists involved really hold bytes. -/
theorem authTag_inj {k1 k2 : DerivedKey} {n1 n2 p1 p2 : List Nat}
    (hk1pw : ∀ b ∈ k1.pw, b < 256) (hk1s : ∀ b ∈ k1.salt, b < 256)
    (hn1 : ∀ b ∈ n1, b < 256) (hp1 : ∀ b ∈ p1, b < 256)
    (hk2pw : ∀ b ∈ k2.pw, b < 256) (hk2s : ∀ b ∈ k2.salt, b < 256)
    (hn2 : ∀ b ∈ n2, b < 256) (hp2 : ∀ b ∈ p2, b < 256)
    (h : authTag k1 n1 p1 = authTag k2 n2 p2) : k1 = k2 ∧ n1 = n2 ∧ p1 = p2 := by
  unfold authTag at h
  have hpair := Nat.pair_eq_pair.mp h
  have hrounds : k1.rounds = k2.rounds := hpair.1
  have hpack := packDigits_inj _ _
    (tagStream_bounds hk1pw hk1s hn1 hp1) (tagStream_bounds hk2pw hk2s hn2 hp2) hpair.2
  have h1 := sep_split _ _ (digs_ne_sep hk1pw) (digs_ne_sep hk2pw) _ _ hpack
  have h2 := sep_split _ _ (digs_ne_sep hk1s) (digs_ne_sep hk2s) _ _ h1.2
  have h3 := sep_split _ _ (digs_ne_sep hn1) (digs_ne_sep hn2) _ _ h2.2
  refine ⟨?_, digs_inj _ _ h3.1, digs_inj _ _ h3.2⟩
  obtain ⟨pw1, s1, r1⟩ := k1
  obtain ⟨pw2, s2, r2⟩ := k2
  simp only [DerivedKey.mk.injEq]
  exact ⟨digs_inj _ _ h1.1, digs_inj _ _ h2.1, hrounds⟩

/-! ## AEAD lemmas -/

/-- Round trip of the ideal AEAD. -/
theorem aeadDecrypt_encrypt (key : DerivedKey) (nonce pt : List Nat) :
    aeadDecrypt key nonce (aeadEncrypt key nonce pt) = some pt := by
  show aeadDecrypt key nonce (pt.length :: (pt ++ [authTag key nonce pt])) = some pt
  simp only [aeadDecrypt]
  rw [List.take_left' rfl]
  simp [aeadEncrypt]

/-- Decryption of a framed blob whose tag cell does not hold the tag the
reader's key and nonce demand fails. -/
theorem aeadDecrypt_badTag (key : DerivedKey) (nonce : List Nat) (L : Nat)
    (pt : List Nat) (t : Nat) (hL : L = pt.length) (ht : authTag key nonce pt ≠ t) :
    aeadDecrypt key nonce (L :: (pt ++ [t])) = none := by
  simp only [aeadDecrypt]
  rw [hL, List.take_left' rfl]
  have hcond : aeadEncrypt key nonce pt ≠ pt.length :: (pt ++ [t]) := by
    intro hc
    simp only [aeadEncrypt, List.cons.injEq, true_and] at hc
    have h2 := List.append_cancel_left hc
    simp only [List.cons.injEq, and_true] at h2
    exact ht h2
  simp [hcond]

/-- Decryption of a framed blob whose length cell is wrong fails. -/
theorem aeadDecrypt_badLength (key : DerivedKey) (nonce : List Nat) (b : Nat)
    (pt : List Nat) (t : Nat) (hb : b ≠ pt.length) :
    aeadDecrypt key nonce (b :: (pt ++ [t])) = none := by
  simp only [aeadDecrypt]
  have hcond : aeadEncrypt key nonce ((pt ++ [t]).take b) ≠ b :: (pt ++ [t]) := by
    intro hc
    have hlen := congrArg List.length hc
    simp only [aeadEncrypt, List.length_cons, List.length_append, List.length_take,
      List.length_nil] at hlen
    omega
  simp [hcond]

end Kayring

namespace Kayring

/-! ## Decoding well-formed payloads -/

/-- `decodeAndDecrypt` on a well-formed version-1 payload reduces to ideal
decryption with the stored salt and nonce. -/
theorem decodeAndDecrypt_wf (salt nonce enc : List Nat) (p : String) (r : Nat)
    (hsl : salt.length = 16) (hnl : nonce.length = 12) :
    decodeAndDecrypt (1 :: (salt ++ nonce ++ enc)) p r =
      match aeadDecrypt (derive_key_v1 p salt r) nonce enc with
      | some ct => .ok ("0x" ++ hexEncodeStr ct)
      | none => .error .decryptFailed := by
  have e1 : ((1 :: (salt ++ nonce ++ enc)).drop 1).take 16 = salt := by
    show (salt ++ nonce ++ enc).take 16 = salt
    rw [List.append_assoc, List.take_left' hsl]
  have e2 : ((1 :: (salt ++ nonce ++ enc)).drop 17).take 12 = nonce := by
    show ((salt ++ nonce ++ enc).drop 16).take 12 = nonce
    rw [List.append_assoc, List.drop_left' hsl, List.take_left' hnl]
  have e3 : (1 :: (salt ++ nonce ++ enc)).drop 29 = enc := by
    show (salt ++ nonce ++ enc).drop 28 = enc
    rw [List.drop_left' (by simp [hsl, hnl])]
  have hlen : ¬ ((1 :: (salt ++ nonce ++ enc)).length < 29) := by
    simp only [List.length_cons, List.length_append, hsl, hnl]
    omega
  simp only [decodeAndDecrypt, if_neg hlen, e1, e2, e3]
  simp

/-- Running `get` on a store holding `c` at the entry's path reduces to
payload processing of those bytes with the resolved password. -/
theorem sub_get_read (fs : FS) (home : Option String) (prs : Prompts)
    (d k : String) (c : List Nat) (pw : Option String) (sil : Bool) (r : Nat)
    (hread : fsRead fs (pathJoin d k) = some c) :
    sub_get fs home prs ⟨k, pw, sil, some d, r⟩ =
      decodeAndDecrypt c (resolveGetPassword pw sil prs) r := by
  simp only [sub_get, rootdir]
  simp [fsExists, hread]

/-- Running `get` against a freshly written entry reduces to payload
processing of the written bytes with the resolved password. -/
theorem sub_get_write (fs : FS) (home : Option String) (prs : Prompts)
    (d k : String) (c : List Nat) (pw : Option String) (sil : Bool) (r : Nat) :
    sub_get (fsWrite fs (pathJoin d k) c) home prs ⟨k, pw, sil, some d, r⟩ =
      decodeAndDecrypt c (resolveGetPassword pw sil prs) r :=
  sub_get_read _ home prs d k c pw sil r (by simp [fsRead, fsWrite, List.lookup])

/-! ## Byte bounds of UTF-8 output -/

theorem char_toNat_lt (c : Char) : c.toNat < 1114112 := by
  rcases c.valid with h | ⟨h1, h2⟩
  · exact Nat.lt_trans h (by norm_num)
  · exact h2

theorem utf8Char_lt (c : Char) : ∀ b ∈ utf8Char c, b < 256 := by
  intro b hb
  have hc := char_toNat_lt c
  simp only [utf8Char] at hb
  split_ifs at hb with h1 h2 h3
  · simp only [List.mem_cons, List.not_mem_nil, or_false] at hb
    omega
  · simp only [List.mem_cons, List.not_mem_nil, or_false] at hb
    rcases hb with rfl | rfl <;> omega
  · simp only [List.mem_cons, List.not_mem_nil, or_false] at hb
    rcases hb with rfl | rfl | rfl <;> omega
  · simp only [List.mem_cons, List.not_mem_nil, or_false] at hb
    rcases hb with rfl | rfl | rfl | rfl <;> omega

theorem utf8Bytes_lt (cs : List Char) : ∀ b ∈ utf8Bytes cs, b < 256 := by
  induction cs with
  | nil => intro b hb; simp [utf8Bytes] at hb
  | cons c cs ih =>
    intro b hb
    simp only [utf8Bytes, List.mem_append] at hb
    rcases hb with hb | hb
    · exact utf8Char_lt c b hb
    · exact ih b hb

theorem utf8Encode_lt (s : String) : ∀ b ∈ utf8Encode s, b < 256 :=
  utf8Bytes_lt s.data

/-! ## Hex round trip -/

theorem hexDigitChar_utf8 : ∀ d, d < 16 →
    utf8Char (hexDigitChar d) = [if d < 10 then 48 + d else 87 + d] := by decide

theorem hexDigitVal_code : ∀ d, d < 16 →
    hexDigitVal (if d < 10 then 48 + d else 87 + d) = some d := by decide

theorem hexCode_lt : ∀ d, d < 16 → (if d < 10 then 48 + d else 87 + d) < 128 := by decide

theorem utf8Bytes_hexChars (s : List Nat) (hs : ∀ b ∈ s, b < 256) :
    hexDecodeBytes (utf8Bytes (hexChars s)) = some s := by
  induction s with
  | nil => rfl
  | cons b bs ih =>
    have hb := hs b (by simp)
    have hhi : b / 16 < 16 := by omega
    have hlo : b % 16 < 16 := by omega
    have ih2 := ih (fun x hx => hs x (by simp [hx]))
    simp only [hexChars, utf8Bytes, hexDigitChar_utf8 _ hhi, hexDigitChar_utf8 _ hlo,
      List.cons_append, List.nil_append]
    simp only [hexDecodeBytes, hexDigitVal_code _ hhi, hexDigitVal_code _ hlo, ih2]
    have hrec : b / 16 * 16 + b % 16 = b := by omega
    rw [hrec]

theorem hexBytes_lt (s : List Nat) (hs : ∀ b ∈ s, b < 256) :
    ∀ b ∈ utf8Bytes (hexChars s), b < 128 := by
  induction s with
  | nil => intro b hb; simp [hexChars, utf8Bytes] at hb
  | cons x xs ih =>
    intro b hb
    have hx := hs x (by simp)
    have hhi : x / 16 < 16 := by omega
    have hlo : x % 16 < 16 := by omega
    simp only [hexChars, utf8Bytes, hexDigitChar_utf8 _ hhi, hexDigitChar_utf8 _ hlo,
      List.cons_append, List.nil_append, List.mem_cons] at hb
    rcases hb with rfl | rfl | hb
    · have := hexCode_lt _ hhi; omega
    · have := hexCode_lt _ hlo; omega
    · exact ih (fun y hy => hs y (by simp [hy])) b hb

end Kayring

namespace Kayring

/-! ## List.set helpers -/

theorem getD_set_self (l : List Nat) (j b : Nat) (hj : j < l.length) :
    (l.set j b).getD j 0 = b := by
  simp [List.getD_eq_getElem?_getD, List.getElem?_set_self', hj]

theorem set_ne_self (l : List Nat) (j b : Nat) (hj : j < l.length)
    (hne : b ≠ l.getD j 0) : l.set j b ≠ l := by
  intro hc
  have := congrArg (fun x => List.getD x j 0) hc
  simp only [getD_set_self l j b hj] at this
  exact hne this

theorem set_bytes {l : List Nat} {j b : Nat} (hl : ∀ x ∈ l, x < 256) (hb : b < 256) :
    ∀ x ∈ l.set j b, x < 256 := by
  intro x hx
  rcases List.mem_or_eq_of_mem_set hx with h | rfl
  · exact hl x h
  · exact hb

/-! ## Successful `set` with a hex value -/

/-- `sub_set` with `--force`, a password argument resolving to `p`, and a
well-formed `0x`-prefixed hex value succeeds and writes the version-1
payload `1 ‖ salt ‖ nonce ‖ AEAD(key, nonce, s)`. -/
theorem sub_set_hex (fs : FS) (home : Option String) (prs : Prompts)
    (salt nonce : List Nat) (hn : nonce.length = 12)
    (d k : String) (pwArg : Option String) (p : String) (sil echo : Bool)
    (hpw : resolveSetPassword pwArg sil prs = .ok p)
    (s : List Nat) (hs : ∀ b ∈ s, b < 256) (r : Nat) :
    sub_set fs home prs salt nonce
      ⟨k, some (String.mk ('0' :: 'x' :: hexChars s)), pwArg, sil, true, echo, some d, r⟩ =
      .ok (fsWrite fs (pathJoin d k)
        (1 :: (salt ++ nonce ++ aeadEncrypt (derive_key_v1 p salt r) nonce s))) := by
  have e0 : utf8Char '0' = [48] := by decide
  have ex : utf8Char 'x' = [120] := by decide
  have eenc : utf8Encode (String.mk ('0' :: 'x' :: hexChars s)) =
      48 :: 120 :: utf8Bytes (hexChars s) := by
    simp [utf8Encode, utf8Bytes, e0, ex]
  have hslice : strBytesFrom2 (String.mk ('0' :: 'x' :: hexChars s)) =
      .ok (utf8Bytes (hexChars s)) := by
    have hcond : ¬(2 < (48 :: 120 :: utf8Bytes (hexChars s)).length ∧
        128 ≤ (48 :: 120 :: utf8Bytes (hexChars s)).getD 2 0 ∧
        (48 :: 120 :: utf8Bytes (hexChars s)).getD 2 0 < 192) := by
      cases hX : utf8Bytes (hexChars s) with
      | nil => simp
      | cons y ys =>
        have hy := hexBytes_lt s hs y (by rw [hX]; simp)
        simp only [List.getD_cons_succ, List.getD_cons_zero, List.length_cons]
        intro _
        omega
    simp only [strBytesFrom2, eenc]
    rw [if_neg (by simp only [List.length_cons]; omega), if_neg hcond]
    rfl
  simp only [sub_set, rootdir, hpw, resolveSetValue, hslice,
    utf8Bytes_hexChars s hs, Bool.not_true, Bool.and_false, Bool.false_eq_true,
    if_false, if_neg (by simp [hn] : ¬ nonce.length ≠ 12)]

end Kayring

namespace Kayring

/-- One-cell tampering of a stored version-1 entry, or a mismatched read
credential, relative to an entry written with password `p`, round count `r`,
salt, nonce and plaintext `pt`.  The five data constructors change exactly
one stored cell — of the salt, the nonce, or the encrypted blob's length,
ciphertext and tag cells — to a different byte value; the last two leave
the file intact but change the read-time password (to one whose
NFC-normalized UTF-8 bytes differ) or the read-time round count.  The
indices are the read-time inputs: password, rounds, stored salt, stored
nonce, stored encrypted blob. -/
inductive TamperedRead (p : String) (r : Nat) (salt nonce pt : List Nat) :
    String → Nat → List Nat → List Nat → List Nat → Prop
  | tamperSalt (j b : Nat) (hj : j < salt.length) (hb : b < 256) (hne : b ≠ salt.getD j 0) :
      TamperedRead p r salt nonce pt p r (salt.set j b) nonce
        (aeadEncrypt (derive_key_v1 p salt r) nonce pt)
  | tamperNonce (j b : Nat) (hj : j < nonce.length) (hb : b < 256) (hne : b ≠ nonce.getD j 0) :
      TamperedRead p r salt nonce pt p r salt (nonce.set j b)
        (aeadEncrypt (derive_key_v1 p salt r) nonce pt)
  | tamperLength (b : Nat) (hne : b ≠ pt.length) :
      TamperedRead p r salt nonce pt p r salt nonce
        (b :: (pt ++ [authTag (derive_key_v1 p salt r) nonce pt]))
  | tamperCiphertext (j b : Nat) (hj : j < pt.length) (hb : b < 256) (hne : b ≠ pt.getD j 0) :
      TamperedRead p r salt nonce pt p r salt nonce
        (pt.length :: (pt.set j b ++ [authTag (derive_key_v1 p salt r) nonce pt]))
  | tamperTag (b : Nat) (hne : b ≠ authTag (derive_key_v1 p salt r) nonce pt) :
      TamperedRead p r salt nonce pt p r salt nonce (pt.length :: (pt ++ [b]))
  | wrongPassword (p2 : String) (hne : utf8Encode (nfc p2) ≠ utf8Encode (nfc p)) :
      TamperedRead p r salt nonce pt p2 r salt nonce
        (aeadEncrypt (derive_key_v1 p salt r) nonce pt)
  | wrongRounds (r2 : Nat) (hne : r2 ≠ r) :
      TamperedRead p r salt nonce pt p r2 salt nonce
        (aeadEncrypt (derive_key_v1 p salt r) nonce pt)

/-- Claim C2, as amended: any single-cell change to the stored salt, nonce,
ciphertext, tag or framing, and any read with a different round count or a
password whose NFC-normalized bytes differ, makes `get` fail with the
decryption (authentication) failure. -/
theorem tampered_get_fails (p : String) (r : Nat) (salt nonce pt : List Nat)
    (hsl : salt.length = 16) (hnl : nonce.length = 12)
    (hsb : ∀ b ∈ salt, b < 256) (hnb : ∀ b ∈ nonce, b < 256) (hpb : ∀ b ∈ pt, b < 256)
    (p2 : String) (r2 : Nat) (salt2 nonce2 enc2 : List Nat)
    (ht : TamperedRead p r salt nonce pt p2 r2 salt2 nonce2 enc2)
    (fs : FS) (home : Option String) (prs : Prompts) (d k : String) (sil : Bool) :
    sub_get (fsWrite fs (pathJoin d k) (1 :: (salt2 ++ nonce2 ++ enc2))) home prs
      ⟨k, some p2, sil, some d, r2⟩ = .error .decryptFailed := by
  rw [sub_get_write]
  simp only [resolveGetPassword]
  cases ht with
  | tamperSalt j b hj hb hne =>
    rw [decodeAndDecrypt_wf _ _ _ _ _ (by rw [List.length_set]; exact hsl) hnl]
    have hkey : authTag (derive_key_v1 p (salt.set j b) r) nonce pt ≠
        authTag (derive_key_v1 p salt r) nonce pt := by
      intro hc
      have hinj := authTag_inj (utf8Encode_lt (nfc p)) (set_bytes hsb hb) hnb hpb
        (utf8Encode_lt (nfc p)) hsb hnb hpb hc
      have hss := congrArg DerivedKey.salt hinj.1
      simp only [derive_key_v1, pbkdf2Ideal] at hss
      exact set_ne_self salt j b hj hne hss
    show (match aeadDecrypt (derive_key_v1 p (salt.set j b) r) nonce
        (pt.length :: (pt ++ [authTag (derive_key_v1 p salt r) nonce pt])) with
      | some ct => Except.ok ("0x" ++ hexEncodeStr ct)
      | none => Except.error KayErr.decryptFailed) = Except.error KayErr.decryptFailed
    rw [aeadDecrypt_badTag _ _ _ _ _ rfl hkey]
  | tamperNonce j b hj hb hne =>
    rw [decodeAndDecrypt_wf _ _ _ _ _ hsl (by rw [List.length_set]; exact hnl)]
    have hkey : authTag (derive_key_v1 p salt r) (nonce.set j b) pt ≠
        authTag (derive_key_v1 p salt r) nonce pt := by
      intro hc
      have hinj := authTag_inj (utf8Encode_lt (nfc p)) hsb (set_bytes hnb hb) hpb
        (utf8Encode_lt (nfc p)) hsb hnb hpb hc
      exact set_ne_self nonce j b hj hne hinj.2.1
    show (match aeadDecrypt (derive_key_v1 p salt r) (nonce.set j b)
        (pt.length :: (pt ++ [authTag (derive_key_v1 p salt r) nonce pt])) with
      | some ct => Except.ok ("0x" ++ hexEncodeStr ct)
      | none => Except.error KayErr.decryptFailed) = Except.error KayErr.decryptFailed
    rw [aeadDecrypt_badTag _ _ _ _ _ rfl hkey]
  | tamperLength b hne =>
    rw [decodeAndDecrypt_wf _ _ _ _ _ hsl hnl]
    rw [aeadDecrypt_badLength _ _ _ _ _ hne]
  | tamperCiphertext j b hj hb hne =>
    rw [decodeAndDecrypt_wf _ _ _ _ _ hsl hnl]
    have hkey : authTag (derive_key_v1 p salt r) nonce (pt.set j b) ≠
        authTag (derive_key_v1 p salt r) nonce pt := by
      intro hc
      have hinj := authTag_inj (utf8Encode_lt (nfc p)) hsb hnb (set_bytes hpb hb)
        (utf8Encode_lt (nfc p)) hsb hnb hpb hc
      exact set_ne_self pt j b hj hne hinj.2.2
    rw [aeadDecrypt_badTag _ _ _ _ _ (by rw [List.length_set]) hkey]
  | tamperTag b hne =>
    rw [decodeAndDecrypt_wf _ _ _ _ _ hsl hnl]
    rw [aeadDecrypt_badTag _ _ _ _ _ rfl hne.symm]
  | wrongPassword p2 hne =>
    rw [decodeAndDecrypt_wf _ _ _ _ _ hsl hnl]
    have hkey : authTag (derive_key_v1 p2 salt r) nonce pt ≠
        authTag (derive_key_v1 p salt r) nonce pt := by
      intro hc
      have hinj := authTag_inj (utf8Encode_lt (nfc p2)) hsb hnb hpb
        (utf8Encode_lt (nfc p)) hsb hnb hpb hc
      have hpw := congrArg DerivedKey.pw hinj.1
      simp only [derive_key_v1, pbkdf2Ideal] at hpw
      exact hne hpw
    show (match aeadDecrypt (derive_key_v1 p2 salt r) nonce
        (pt.length :: (pt ++ [authTag (derive_key_v1 p salt r) nonce pt])) with
      | some ct => Except.ok ("0x" ++ hexEncodeStr ct)
      | none => Except.error KayErr.decryptFailed) = Except.error KayErr.decryptFailed
    rw [aeadDecrypt_badTag _ _ _ _ _ rfl hkey]
  | wrongRounds r2 hne =>
    rw [decodeAndDecrypt_wf _ _ _ _ _ hsl hnl]
    have hkey : authTag (derive_key_v1 p salt r2) nonce pt ≠
        authTag (derive_key_v1 p salt r) nonce pt := by
      intro hc
      have hinj := authTag_inj (utf8Encode_lt (nfc p)) hsb hnb hpb
        (utf8Encode_lt (nfc p)) hsb hnb hpb hc
      have hr := congrArg DerivedKey.rounds hinj.1
      simp only [derive_key_v1, pbkdf2Ideal] at hr
      exact hne hr
    show (match aeadDecrypt (derive_key_v1 p salt r2) nonce
        (pt.length :: (pt ++ [authTag (derive_key_v1 p salt r) nonce pt])) with
      | some ct => Except.ok ("0x" ++ hexEncodeStr ct)
      | none => Except.error KayErr.decryptFailed) = Except.error KayErr.decryptFailed
    rw [aeadDecrypt_badTag _ _ _ _ _ rfl hkey]

end Kayring

namespace Kayring

/-! ## Concrete inputs used by the witnesses and counterexamples -/

/-- a concrete 16-byte salt -/
def z16 : List Nat := List.replicate 16 0

/-- a concrete 12-byte nonce -/
def z12 : List Nat := List.replicate 12 0

/-- empty console inputs -/
def pr0 : Prompts := ⟨"", "", ""⟩

/-! ## Claim theorems -/

/-- Claim C1: for every secret byte sequence `s` (including the empty one),
every password `p` and every round count `r ≥ 1`, `set` of the
`0x`-prefixed hex encoding of `s` succeeds and writes the version-1 entry,
and `get` on that entry with the same password and rounds returns exactly
`s` (printed as its `0x`-prefixed hex line). -/
theorem C1_set_get_round_trip (fs : FS) (home : Option String) (prs : Prompts)
    (d k p : String) (s salt nonce : List Nat) (r : Nat) (sil sil2 echo : Bool)
    (hr : 1 ≤ r) (hs : ∀ b ∈ s, b < 256) (hsl : salt.length = 16)
    (hnl : nonce.length = 12) :
    sub_set fs home prs salt nonce
        ⟨k, some (String.mk ('0' :: 'x' :: hexChars s)), some p, sil, true, echo, some d, r⟩ =
      .ok (fsWrite fs (pathJoin d k)
        (1 :: (salt ++ nonce ++ aeadEncrypt (derive_key_v1 p salt r) nonce s))) ∧
    sub_get (fsWrite fs (pathJoin d k)
        (1 :: (salt ++ nonce ++ aeadEncrypt (derive_key_v1 p salt r) nonce s))) home prs
        ⟨k, some p, sil2, some d, r⟩ =
      .ok ("0x" ++ hexEncodeStr s) := by
  refine ⟨sub_set_hex fs home prs salt nonce hnl d k (some p) p sil echo rfl s hs r, ?_⟩
  rw [sub_get_write]
  simp only [resolveGetPassword]
  rw [decodeAndDecrypt_wf _ _ _ _ _ hsl hnl, aeadDecrypt_encrypt]

/-- Witness for C1 at a concrete input: secret `0xab`, password `"p"`,
one derivation round. -/
theorem C1_witness :
    1 ≤ 1 ∧ (∀ b ∈ [171], b < 256) ∧ z16.length = 16 ∧ z12.length = 12 ∧
    (sub_set [] (some "/h") pr0 z16 z12
        ⟨"k", some (String.mk ('0' :: 'x' :: hexChars [171])), some "p", false, true, false,
          some "/d", 1⟩ =
      .ok (fsWrite [] (pathJoin "/d" "k")
        (1 :: (z16 ++ z12 ++ aeadEncrypt (derive_key_v1 "p" z16 1) z12 [171]))) ∧
     sub_get (fsWrite [] (pathJoin "/d" "k")
        (1 :: (z16 ++ z12 ++ aeadEncrypt (derive_key_v1 "p" z16 1) z12 [171]))) (some "/h") pr0
        ⟨"k", some "p", false, some "/d", 1⟩ =
      .ok ("0x" ++ hexEncodeStr [171])) :=
  ⟨by decide, by decide, by decide, by decide,
    C1_set_get_round_trip [] (some "/h") pr0 "/d" "k" "p" [171] z16 z12 1 false false false
      (by decide) (by decide) (by decide) (by decide)⟩

end Kayring

namespace Kayring

/-- Claim C2, counterexample: reading with `"e" + COMBINING ACUTE ACCENT`
(U+0065 U+0301), a password different from the precomposed `"é"` (U+00E9)
used at write time — everything else held fixed — succeeds and returns the
secret, so supplying a different password at read time does not always
cause an authentication failure. -/
theorem C2_counterexample :
    ("é" : String) ≠ "é" ∧
    setThenGet [] (some "/h") pr0 z16 z12
      ⟨"k", some "0xab", some "é", false, true, false, some "/d", 1⟩
      ⟨"k", some "é", false, some "/d", 1⟩ = some "0xab" :=
  ⟨by decide, by decide⟩

/-- Witness for the amended C2 at a concrete input: the entry written with
password `"p"` and one round read back with two rounds fails to decrypt. -/
theorem C2_witness :
    z16.length = 16 ∧ z12.length = 12 ∧ (∀ b ∈ z16, b < 256) ∧ (∀ b ∈ z12, b < 256) ∧
    (∀ b ∈ [171], b < 256) ∧ (2 : Nat) ≠ 1 ∧
    sub_get (fsWrite [] (pathJoin "/d" "k")
        (1 :: (z16 ++ z12 ++ aeadEncrypt (derive_key_v1 "p" z16 1) z12 [171]))) (some "/h") pr0
      ⟨"k", some "p", false, some "/d", 2⟩ = .error .decryptFailed :=
  ⟨by decide, by decide, by decide, by decide, by decide, by decide,
    tampered_get_fails "p" 1 z16 z12 [171] (by decide) (by decide) (by decide) (by decide)
      (by decide) "p" 2 z16 z12 _ (TamperedRead.wrongRounds 2 (by decide))
      [] (some "/h") pr0 "/d" "k" false⟩

/-- Claim C3: contrary to the claim, no stored payload shorter than 29
bytes produces a malformed-payload error: the empty payload makes the code
panic on `contents[0]`, every short version-1 payload makes it panic on the
out-of-bounds slices, and every other short payload is reported as an
unknown file version — the code has no malformed-payload error site at
all. -/
theorem C3_short_payload_panics (fs : FS) (home : Option String) (prs : Prompts)
    (d k : String) (pw : Option String) (sil : Bool) (r : Nat) (contents : List Nat)
    (hshort : contents.length < 29) :
    (contents = [] →
      sub_get (fsWrite fs (pathJoin d k) contents) home prs ⟨k, pw, sil, some d, r⟩ =
        .error (.rustPanic "index out of bounds")) ∧
    (∀ rest, contents = 1 :: rest →
      sub_get (fsWrite fs (pathJoin d k) contents) home prs ⟨k, pw, sil, some d, r⟩ =
        .error (.rustPanic "slice index out of bounds")) ∧
    (∀ v rest, contents = v :: rest → v ≠ 1 →
      sub_get (fsWrite fs (pathJoin d k) contents) home prs ⟨k, pw, sil, some d, r⟩ =
        .error .unknownFileVersion) := by
  refine ⟨?_, ?_, ?_⟩
  · intro hc
    subst hc
    rw [sub_get_write]
    rfl
  · intro rest hc
    subst hc
    have h28 : ¬ 28 ≤ rest.length := by
      simp only [List.length_cons] at hshort
      omega
    rw [sub_get_write]
    simp [decodeAndDecrypt, h28]
  · intro v rest hc hv
    subst hc
    rw [sub_get_write]
    simp [decodeAndDecrypt, hv]

/-- Witness for C3 at a concrete input: the one-byte version-1 payload
`[1]` is below the 29-byte header size and makes `get` panic. -/
theorem C3_witness :
    ([1] : List Nat).length < 29 ∧
    sub_get (fsWrite [] (pathJoin "/d" "k") [1]) (some "/h") pr0
      ⟨"k", some "p", false, some "/d", 1⟩ = .error (.rustPanic "slice index out of bounds") :=
  ⟨by decide,
    (C3_short_payload_panics [] (some "/h") pr0 "/d" "k" (some "p") false 1 [1]
      (by decide)).2.1 [] rfl⟩

/-- Claim C5: contrary to the claim, a supplied `--value` that is not a
well-formed `0x`-prefixed hex string does not yield an encoding failure:
the code unconditionally strips the first two bytes, so the empty value
panics on string slicing, and the prefix-less value `"abcd"` is silently
accepted and stores the bytes of `"cd"`. -/
theorem C5_value_not_checked :
    (sub_set [] (some "/h") pr0 z16 z12
        ⟨"k", some "", some "p", true, false, false, some "/d", 1⟩ =
      .error (.rustPanic "byte index out of bounds")) ∧
    (sub_set [] (some "/h") pr0 z16 z12
        ⟨"k", some "abcd", some "p", true, false, false, some "/d", 1⟩ =
      .ok (fsWrite [] (pathJoin "/d" "k")
        (1 :: (z16 ++ z12 ++ aeadEncrypt (derive_key_v1 "p" z16 1) z12 [205])))) :=
  ⟨by decide, by decide⟩

/-- Claim C6: any stored payload of at least one byte whose first byte is
not 1 is rejected by `get` with the unknown-file-version error; the result
involves no key derivation or decryption outcome. -/
theorem C6_unknown_version (fs : FS) (home : Option String) (prs : Prompts)
    (d k : String) (pw : Option String) (sil : Bool) (r v : Nat) (rest : List Nat)
    (hv : v ≠ 1) :
    sub_get (fsWrite fs (pathJoin d k) (v :: rest)) home prs ⟨k, pw, sil, some d, r⟩ =
      .error .unknownFileVersion := by
  rw [sub_get_write]
  simp only [decodeAndDecrypt, if_neg hv]

/-- Witness for C6 at a concrete input: version byte 2. -/
theorem C6_witness :
    (2 : Nat) ≠ 1 ∧
    sub_get (fsWrite [] (pathJoin "/d" "k") (2 :: [7, 7])) (some "/h") pr0
      ⟨"k", some "p", false, some "/d", 1⟩ = .error .unknownFileVersion :=
  ⟨by decide, C6_unknown_version [] (some "/h") pr0 "/d" "k" (some "p") false 1 2 [7, 7]
    (by decide)⟩

end Kayring

namespace Kayring

/-- Claim C4, counterexample: `set` with the entry name `../escape` rejects
and sanitizes nothing — it succeeds and writes exactly the file
`/root/../escape`, which does not lie under the root directory `/root`. -/
theorem C4_counterexample :
    ((sub_set [] (some "/h") pr0 z16 z12
        ⟨"../escape", some "0xab", some "p", false, false, false, some "/root", 1⟩).toOption.map
      (fun fs => fs.map Prod.fst) = some ["/root/../escape"]) ∧
    isUnder "/root" "/root/../escape" = false :=
  ⟨by decide, by decide⟩

/-- Claim C4, as amended: no operation rejects or sanitizes the entry
name.  Every successful `set` writes exactly to the raw join of the root
directory with the untrusted name; `get` reads exactly the raw join of
root and name (not-found on its absence, payload processing of its bytes
otherwise); `clone` reads exactly the raw join for its source name and
writes exactly the raw join for its target name.  For a name containing a
separator or a `..` component these raw joins address files outside the
root directory. -/
theorem C4_amended_raw_join (fs : FS) (home : Option String) (prs : Prompts)
    (salt nonce : List Nat) (fs2 : FS) (d nm a b : String)
    (v pwS pw : Option String) (silS sil forceS force echo : Bool) (r2 r : Nat) :
    (sub_set fs home prs salt nonce ⟨nm, v, pwS, silS, forceS, echo, some d, r2⟩ = .ok fs2 →
      ∃ c, fs2 = fsWrite fs (pathJoin d nm) c) ∧
    (sub_get fs home prs ⟨nm, pw, sil, some d, r⟩ =
      match fsRead fs (pathJoin d nm) with
      | none => .error (.notFound nm)
      | some c => decodeAndDecrypt c (resolveGetPassword pw sil prs) r) ∧
    (sub_clone fs home ⟨a, b, force, some d⟩ =
      match fsRead fs (pathJoin d a) with
      | none => .error (.notFound a)
      | some c =>
        if fsExists fs (pathJoin d b) && !force then .error (.alreadyExists b)
        else .ok (fsWrite fs (pathJoin d b) c)) := by
  refine ⟨?_, ?_, ?_⟩
  · intro hset
    unfold sub_set at hset
    simp only [] at hset
    split at hset
    · exact Except.noConfusion hset
    split at hset
    next e heq => simp [rootdir] at heq
    next dirpath heq =>
      simp only [rootdir, Except.ok.injEq] at heq
      subst heq
      split at hset
      next heq2 => exact Except.noConfusion hset
      next heq2 =>
        split at hset
        next e heq3 => exact Except.noConfusion hset
        next password heq3 =>
          split at hset
          next e heq4 => exact Except.noConfusion hset
          next privkey heq4 =>
            split at hset
            next e heq5 => exact Except.noConfusion hset
            next sliced heq5 =>
              split at hset
              next heq6 => exact Except.noConfusion hset
              next value heq6 =>
                injection hset with hfs
                exact ⟨_, hfs.symm⟩
  · cases hread : fsRead fs (pathJoin d nm) with
    | none =>
      simp only [sub_get, rootdir]
      simp [fsExists, hread]
    | some c =>
      simp only [sub_get, rootdir]
      simp [fsExists, hread]
  · cases hread : fsRead fs (pathJoin d a) with
    | none =>
      simp only [sub_clone, rootdir]
      simp [fsExists, hread]
    | some c =>
      simp only [sub_clone, rootdir]
      simp [fsExists, hread]

/-- Witness for the amended C4 at concrete inputs: the traversal name
`../escape` under root `/root`, exercised for `set`, `get` and `clone`. -/
theorem C4_amended_witness :
    (sub_set [] (some "/h") pr0 z16 z12
        ⟨"../escape", some "0xab", some "p", false, false, false, some "/root", 1⟩ =
      .ok (fsWrite [] (pathJoin "/root" "../escape")
        (1 :: (z16 ++ z12 ++ aeadEncrypt (derive_key_v1 "p" z16 1) z12 [171])))) ∧
    (∃ c, fsWrite [] (pathJoin "/root" "../escape")
        (1 :: (z16 ++ z12 ++ aeadEncrypt (derive_key_v1 "p" z16 1) z12 [171])) =
      fsWrite [] (pathJoin "/root" "../escape") c) ∧
    (sub_get [] (some "/h") pr0 ⟨"../escape", some "p", false, some "/root", 1⟩ =
      match fsRead [] (pathJoin "/root" "../escape") with
      | none => .error (.notFound "../escape")
      | some c => decodeAndDecrypt c (resolveGetPassword (some "p") false pr0) 1) ∧
    (sub_clone [] (some "/h") ⟨"../escape", "x", false, some "/root"⟩ =
      match fsRead [] (pathJoin "/root" "../escape") with
      | none => .error (.notFound "../escape")
      | some c =>
        if fsExists ([] : FS) (pathJoin "/root" "x") && !false then
          .error (.alreadyExists "x")
        else .ok (fsWrite [] (pathJoin "/root" "x") c)) := by
  have T := C4_amended_raw_join [] (some "/h") pr0 z16 z12
    (fsWrite [] (pathJoin "/root" "../escape")
      (1 :: (z16 ++ z12 ++ aeadEncrypt (derive_key_v1 "p" z16 1) z12 [171])))
    "/root" "../escape" "../escape" "x" (some "0xab") (some "p") (some "p")
    false false false false false 1 1
  exact ⟨by decide, T.1 (by decide), T.2.1, T.2.2⟩

/-- Claim C7: two passwords with equal NFC normalization derive identical
keys for every salt and round count, and are interchangeable between `set`
and `get`: a `get` with the second password recovers a secret stored under
the first. -/
theorem C7_nfc_equivalent (p1 p2 : String) (hnfc : nfc p1 = nfc p2)
    (fs : FS) (home : Option String) (prs : Prompts) (d k : String)
    (s salt nonce : List Nat) (r : Nat) (sil : Bool)
    (hsl : salt.length = 16) (hnl : nonce.length = 12) :
    (∀ (sa : List Nat) (ro : Nat), derive_key_v1 p1 sa ro = derive_key_v1 p2 sa ro) ∧
    sub_get (fsWrite fs (pathJoin d k)
        (1 :: (salt ++ nonce ++ aeadEncrypt (derive_key_v1 p1 salt r) nonce s))) home prs
      ⟨k, some p2, sil, some d, r⟩ = .ok ("0x" ++ hexEncodeStr s) := by
  have hkeys : ∀ (sa : List Nat) (ro : Nat), derive_key_v1 p1 sa ro = derive_key_v1 p2 sa ro := by
    intro sa ro
    simp [derive_key_v1, hnfc]
  refine ⟨hkeys, ?_⟩
  rw [sub_get_write]
  simp only [resolveGetPassword]
  rw [decodeAndDecrypt_wf _ _ _ _ _ hsl hnl, hkeys salt r, aeadDecrypt_encrypt]

/-- Witness for C7 at a concrete input: the precomposed password
`"é"` versus the byte-distinct decomposed `"é"`
(e + COMBINING ACUTE ACCENT); the entry stored under the former is read
back with the latter. -/
theorem C7_witness :
    ("é" : String) ≠ "é" ∧
    nfc "é" = nfc "é" ∧ z16.length = 16 ∧ z12.length = 12 ∧
    ((∀ (sa : List Nat) (ro : Nat),
        derive_key_v1 "é" sa ro = derive_key_v1 "é" sa ro) ∧
     sub_get (fsWrite [] (pathJoin "/d" "k")
        (1 :: (z16 ++ z12 ++ aeadEncrypt (derive_key_v1 "é" z16 1) z12 [171])))
        (some "/h") pr0
      ⟨"k", some "é", false, some "/d", 1⟩ = .ok ("0x" ++ hexEncodeStr [171])) :=
  ⟨by decide, by decide, by decide, by decide,
    C7_nfc_equivalent "é" "é" (by decide) [] (some "/h") pr0 "/d" "k" [171]
      z16 z12 1 false (by decide) (by decide)⟩

end Kayring

namespace Kayring

/-- Claim C8: `set` on an existing entry without `--force` fails with the
already-exists error before anything is written, leaving the store
unchanged; with `--force` it succeeds and the new payload fully replaces
the entry's previous contents. -/
theorem C8_overwrite_protection (fs : FS) (home : Option String) (prs : Prompts)
    (salt nonce : List Nat) (d k p : String) (v : Option String)
    (s old : List Nat) (r : Nat) (sil echo : Bool)
    (hn : nonce.length = 12) (hs : ∀ b ∈ s, b < 256)
    (hold : fsRead fs (pathJoin d k) = some old) :
    (sub_set fs home prs salt nonce ⟨k, v, some p, sil, false, echo, some d, r⟩ =
        .error (.alreadyExists k) ∧
      runSet fs home prs salt nonce ⟨k, v, some p, sil, false, echo, some d, r⟩ = fs) ∧
    (sub_set fs home prs salt nonce
        ⟨k, some (String.mk ('0' :: 'x' :: hexChars s)), some p, sil, true, echo, some d, r⟩ =
        .ok (fsWrite fs (pathJoin d k)
          (1 :: (salt ++ nonce ++ aeadEncrypt (derive_key_v1 p salt r) nonce s))) ∧
      fsRead (fsWrite fs (pathJoin d k)
          (1 :: (salt ++ nonce ++ aeadEncrypt (derive_key_v1 p salt r) nonce s)))
        (pathJoin d k) =
        some (1 :: (salt ++ nonce ++ aeadEncrypt (derive_key_v1 p salt r) nonce s))) := by
  have hexists : fsExists fs (pathJoin d k) = true := by simp [fsExists, hold]
  have herr : sub_set fs home prs salt nonce ⟨k, v, some p, sil, false, echo, some d, r⟩ =
      .error (.alreadyExists k) := by
    simp only [sub_set, rootdir, if_neg (by simp [hn] : ¬ nonce.length ≠ 12)]
    simp [hexists]
  refine ⟨⟨herr, by simp [runSet, herr]⟩,
    sub_set_hex fs home prs salt nonce hn d k (some p) p sil echo rfl s hs r, ?_⟩
  simp [fsRead, fsWrite, List.lookup]

/-- Witness for C8 at a concrete input: an existing entry `k` holding `[9]`. -/
theorem C8_witness :
    z12.length = 12 ∧ (∀ b ∈ [171], b < 256) ∧
    fsRead [(pathJoin "/d" "k", [9])] (pathJoin "/d" "k") = some [9] ∧
    ((sub_set [(pathJoin "/d" "k", [9])] (some "/h") pr0 z16 z12
        ⟨"k", some "0xab", some "p", false, false, false, some "/d", 1⟩ =
        .error (.alreadyExists "k") ∧
      runSet [(pathJoin "/d" "k", [9])] (some "/h") pr0 z16 z12
        ⟨"k", some "0xab", some "p", false, false, false, some "/d", 1⟩ =
        [(pathJoin "/d" "k", [9])]) ∧
     (sub_set [(pathJoin "/d" "k", [9])] (some "/h") pr0 z16 z12
        ⟨"k", some (String.mk ('0' :: 'x' :: hexChars [171])), some "p", false, true, false,
          some "/d", 1⟩ =
        .ok (fsWrite [(pathJoin "/d" "k", [9])] (pathJoin "/d" "k")
          (1 :: (z16 ++ z12 ++ aeadEncrypt (derive_key_v1 "p" z16 1) z12 [171]))) ∧
      fsRead (fsWrite [(pathJoin "/d" "k", [9])] (pathJoin "/d" "k")
          (1 :: (z16 ++ z12 ++ aeadEncrypt (derive_key_v1 "p" z16 1) z12 [171])))
        (pathJoin "/d" "k") =
        some (1 :: (z16 ++ z12 ++ aeadEncrypt (derive_key_v1 "p" z16 1) z12 [171])))) :=
  ⟨by decide, by decide, by decide,
    C8_overwrite_protection [(pathJoin "/d" "k", [9])] (some "/h") pr0 z16 z12 "/d" "k" "p"
      (some "0xab") [171] [9] 1 false false (by decide) (by decide) (by decide)⟩

/-- Claim C9: `clone` fails with the not-found error when the source entry
is missing; fails with the already-exists error when the target exists and
`--force` is not given; and otherwise copies the stored bytes verbatim, so
the clone's file equals the source's byte-for-byte and `get` of the clone
processes exactly the same payload (hence the same plaintext) as `get` of
the original, for whatever password and rounds encrypted it. -/
theorem C9_clone_fidelity (fs : FS) (home : Option String) (d a b : String) (force : Bool)
    (c : List Nat) :
    (fsRead fs (pathJoin d a) = none →
      sub_clone fs home ⟨a, b, force, some d⟩ = .error (.notFound a)) ∧
    (fsExists fs (pathJoin d a) = true → fsExists fs (pathJoin d b) = true →
      sub_clone fs home ⟨a, b, false, some d⟩ = .error (.alreadyExists b)) ∧
    (fsRead fs (pathJoin d a) = some c →
      (fsExists fs (pathJoin d b) = false ∨ force = true) →
      sub_clone fs home ⟨a, b, force, some d⟩ = .ok (fsWrite fs (pathJoin d b) c) ∧
      fsRead (fsWrite fs (pathJoin d b) c) (pathJoin d b) = some c ∧
      ∀ (prs : Prompts) (pw : Option String) (sil : Bool) (r : Nat),
        sub_get (fsWrite fs (pathJoin d b) c) home prs ⟨b, pw, sil, some d, r⟩ =
          decodeAndDecrypt c (resolveGetPassword pw sil prs) r ∧
        sub_get (fsWrite fs (pathJoin d b) c) home prs ⟨a, pw, sil, some d, r⟩ =
          decodeAndDecrypt c (resolveGetPassword pw sil prs) r) := by
  refine ⟨?_, ?_, ?_⟩
  · intro hno
    simp only [sub_clone, rootdir]
    simp [fsExists, hno]
  · intro ha hb2
    simp only [sub_clone, rootdir]
    simp [ha, hb2]
  · intro hsome hfree
    have ha : fsExists fs (pathJoin d a) = true := by simp [fsExists, hsome]
    have hsome2 : List.lookup (pathJoin d a) fs = some c := hsome
    have hokc : sub_clone fs home ⟨a, b, force, some d⟩ = .ok (fsWrite fs (pathJoin d b) c) := by
      simp only [sub_clone, rootdir]
      rcases hfree with hf | hf
      · simp [ha, hf, fsRead, hsome2]
      · simp [ha, hf, fsRead, hsome2]
    refine ⟨hokc, by simp [fsRead, fsWrite, List.lookup], ?_⟩
    intro prs pw sil r
    refine ⟨sub_get_write fs home prs d b c pw sil r, ?_⟩
    have hreadA : fsRead (fsWrite fs (pathJoin d b) c) (pathJoin d a) = some c := by
      by_cases hab : pathJoin d a = pathJoin d b
      · rw [hab]
        simp [fsRead, fsWrite, List.lookup]
      · have hbeq : (pathJoin d a == pathJoin d b) = false := beq_eq_false_iff_ne.mpr hab
        simp only [fsRead, fsWrite, List.lookup, hbeq]
        exact hsome
    exact sub_get_read _ home prs d a c pw sil r hreadA

/-- Witness for C9 at a concrete input: cloning entry `a` holding `[9]` to
a fresh entry `b`. -/
theorem C9_witness :
    fsRead [(pathJoin "/d" "a", [9])] (pathJoin "/d" "a") = some [9] ∧
    (fsExists [(pathJoin "/d" "a", [9])] (pathJoin "/d" "b") = false ∨ false = true) ∧
    (sub_clone [(pathJoin "/d" "a", [9])] (some "/h") ⟨"a", "b", false, some "/d"⟩ =
        .ok (fsWrite [(pathJoin "/d" "a", [9])] (pathJoin "/d" "b") [9]) ∧
      fsRead (fsWrite [(pathJoin "/d" "a", [9])] (pathJoin "/d" "b") [9]) (pathJoin "/d" "b") =
        some [9] ∧
      ∀ (prs : Prompts) (pw : Option String) (sil : Bool) (r : Nat),
        sub_get (fsWrite [(pathJoin "/d" "a", [9])] (pathJoin "/d" "b") [9]) (some "/h") prs
            ⟨"b", pw, sil, some "/d", r⟩ =
          decodeAndDecrypt [9] (resolveGetPassword pw sil prs) r ∧
        sub_get (fsWrite [(pathJoin "/d" "a", [9])] (pathJoin "/d" "b") [9]) (some "/h") prs
            ⟨"a", pw, sil, some "/d", r⟩ =
          decodeAndDecrypt [9] (resolveGetPassword pw sil prs) r) :=
  ⟨by decide, by decide,
    (C9_clone_fidelity [(pathJoin "/d" "a", [9])] (some "/h") "/d" "a" "b" false [9]).2.2
      (by decide) (by decide)⟩

/-- Claim C10: with the password argument omitted in silent mode, `set`
stores the secret encrypted under the key derived from the empty string,
and a silent `get` that also omits the password retrieves it. -/
theorem C10_silent_empty_password (fs : FS) (home : Option String) (prs : Prompts)
    (salt nonce : List Nat) (d k : String) (s : List Nat) (r : Nat) (echo : Bool)
    (hs : ∀ b ∈ s, b < 256) (hsl : salt.length = 16) (hnl : nonce.length = 12) :
    (sub_set fs home prs salt nonce
        ⟨k, some (String.mk ('0' :: 'x' :: hexChars s)), none, true, true, echo, some d, r⟩ =
      .ok (fsWrite fs (pathJoin d k)
        (1 :: (salt ++ nonce ++ aeadEncrypt (derive_key_v1 "" salt r) nonce s)))) ∧
    sub_get (fsWrite fs (pathJoin d k)
        (1 :: (salt ++ nonce ++ aeadEncrypt (derive_key_v1 "" salt r) nonce s))) home prs
      ⟨k, none, true, some d, r⟩ = .ok ("0x" ++ hexEncodeStr s) := by
  refine ⟨sub_set_hex fs home prs salt nonce hnl d k none "" true echo rfl s hs r, ?_⟩
  rw [sub_get_write]
  have hrp : resolveGetPassword none true prs = "" := rfl
  rw [hrp, decodeAndDecrypt_wf _ _ _ _ _ hsl hnl, aeadDecrypt_encrypt]

/-- Witness for C10 at a concrete input: secret `0xab` stored silently with
no password and one round. -/
theorem C10_witness :
    (∀ b ∈ [171], b < 256) ∧ z16.length = 16 ∧ z12.length = 12 ∧
    ((sub_set [] (some "/h") pr0 z16 z12
        ⟨"k", some (String.mk ('0' :: 'x' :: hexChars [171])), none, true, true, false,
          some "/d", 1⟩ =
      .ok (fsWrite [] (pathJoin "/d" "k")
        (1 :: (z16 ++ z12 ++ aeadEncrypt (derive_key_v1 "" z16 1) z12 [171])))) ∧
     sub_get (fsWrite [] (pathJoin "/d" "k")
        (1 :: (z16 ++ z12 ++ aeadEncrypt (derive_key_v1 "" z16 1) z12 [171]))) (some "/h") pr0
      ⟨"k", none, true, some "/d", 1⟩ = .ok ("0x" ++ hexEncodeStr [171])) :=
  ⟨by decide, by decide, by decide,
    C10_silent_empty_password [] (some "/h") pr0 z16 z12 "/d" "k" [171] 1 false
      (by decide) (by decide) (by decide)⟩

end Kayring
